import Mathlib

/-!
Verification of the chunking engine of `backend/app/services/document_parser.py`.

The Python strings are modelled as Lean `String`s and manipulated through their
code-point lists (`String.data`), matching Python's code-point semantics for
`len`, slicing and iteration.  Machine-level hashing (`hashlib.md5`) is
implemented over `Nat` byte lists with explicit `% 2^32` reductions.
-/

set_option maxRecDepth 4000

/-! ## Python string helpers -/

/-- Python `len(s)` (number of code points). -/
def pyLen (s : String) : Nat := s.data.length

/-- Python `s[:n]` (slice of the first `n` code points). -/
def takePy (s : String) (n : Nat) : String := ⟨s.data.take n⟩

/-- Python `s.strip()` on a code-point list (ASCII whitespace suffices here). -/
def pyStripL (cs : List Char) : List Char :=
  ((cs.dropWhile Char.isWhitespace).reverse.dropWhile Char.isWhitespace).reverse

/-- Python `s.strip()`. -/
def pyStrip (s : String) : String := ⟨pyStripL s.data⟩

/-- Python `s.split(sep)` for a one-character separator: all pieces kept,
including empty ones. -/
def splitCharOn (sep : Char) : List Char → List (List Char)
  | [] => [[]]
  | c :: cs =>
    if c = sep then [] :: splitCharOn sep cs
    else
      match splitCharOn sep cs with
      | [] => [[c]]
      | p :: ps => (c :: p) :: ps

/-- Python `s.split("\n")`. -/
def splitNL (s : String) : List String := (splitCharOn '\n' s.data).map (fun cs => ⟨cs⟩)

/-- Python `"\n".join(us)`. -/
def joinNL : List String → String
  | [] => ""
  | [u] => u
  | u :: v :: vs => u ++ "\n" ++ joinNL (v :: vs)

/-- Python `s.startswith(p)`. -/
def strStartsWith (s p : String) : Bool := p.data.isPrefixOf s.data

/-- Python `s.endswith(p)`. -/
def strEndsWith (s p : String) : Bool := p.data.isSuffixOf s.data

/-- Worker for Python `s.replace(pat, rep)`: left-to-right, non-overlapping
replacement of every occurrence.  `fuel` is the length of the remaining input,
which bounds the recursion depth. -/
def replaceAllGo (pat rep : List Char) : Nat → List Char → List Char
  | 0, s => s
  | _ + 1, [] => []
  | fuel + 1, c :: cs =>
    if pat ≠ [] ∧ pat.isPrefixOf (c :: cs) = true then
      rep ++ replaceAllGo pat rep fuel ((c :: cs).drop pat.length)
    else
      c :: replaceAllGo pat rep fuel cs

/-- Python `s.replace(pat, rep)` (the patterns used by the parser are never empty). -/
def strReplace (s pat rep : String) : String :=
  ⟨replaceAllGo pat.data rep.data s.data.length s.data⟩

/-- Does `sub` occur as a contiguous substring? (Python `sub in s`.) -/
def hasSubstrGo (sub : List Char) : List Char → Bool
  | [] => sub.isPrefixOf []
  | c :: cs => sub.isPrefixOf (c :: cs) || hasSubstrGo sub cs

/-- Python `sub in s`. -/
def hasSubstr (s sub : String) : Bool := hasSubstrGo sub.data s.data

/-- Python list/str slice `l[s:e]` for non-negative bounds (clamped). -/
def pySlice {α : Type} (l : List α) (s e : Nat) : List α := (l.take e).drop s

/-- Decimal digit accumulation for Python `int(...)`. -/
def digitsValGo (acc : Nat) : List Char → Option Nat
  | [] => some acc
  | c :: cs => if c.isDigit then digitsValGo (acc * 10 + (c.toNat - 48)) cs else none

/-- Python `int(s)`: optional surrounding whitespace, optional sign, decimal
digits; `none` models the `ValueError` path.  (Underscore separators are not
modelled; they cannot occur in the placeholder indices handled here.) -/
def pyInt? (s : String) : Option Int :=
  let cs := pyStripL s.data
  match cs with
  | '-' :: rest => if rest ≠ [] then (digitsValGo 0 rest).map (fun n => -(n : Int)) else none
  | '+' :: rest => if rest ≠ [] then (digitsValGo 0 rest).map (fun n => (n : Int)) else none
  | _ => if cs ≠ [] then (digitsValGo 0 cs).map (fun n => (n : Int)) else none

/-! ## MD5 (`hashlib.md5(...).hexdigest()`), over `Nat` bytes -/

/-- Reduce modulo `2^32`. -/
def w32 (n : Nat) : Nat := n % 4294967296

/-- Bitwise complement on 32-bit values. -/
def not32 (x : Nat) : Nat := Nat.xor x 4294967295

/-- 32-bit left rotation (for `x < 2^32` the sum has no carries, so it equals
the usual `(x <<< s) ||| (x >>> (32 - s))`). -/
def rotl32 (x s : Nat) : Nat := w32 (x * 2 ^ s + x / 2 ^ (32 - s))

/-- The 64 MD5 sine-derived constants (RFC 1321). -/
def md5K : List Nat :=
  [0xd76aa478, 0xe8c7b756, 0x242070db, 0xc1bdceee,
   0xf57c0faf, 0x4787c62a, 0xa8304613, 0xfd469501,
   0x698098d8, 0x8b44f7af, 0xffff5bb1, 0x895cd7be,
   0x6b901122, 0xfd987193, 0xa679438e, 0x49b40821,
   0xf61e2562, 0xc040b340, 0x265e5a51, 0xe9b6c7aa,
   0xd62f105d, 0x02441453, 0xd8a1e681, 0xe7d3fbc8,
   0x21e1cde6, 0xc33707d6, 0xf4d50d87, 0x455a14ed,
   0xa9e3e905, 0xfcefa3f8, 0x676f02d9, 0x8d2a4c8a,
   0xfffa3942, 0x8771f681, 0x6d9d6122, 0xfde5380c,
   0xa4beea44, 0x4bdecfa9, 0xf6bb4b60, 0xbebfbc70,
   0x289b7ec6, 0xeaa127fa, 0xd4ef3085, 0x04881d05,
   0xd9d4d039, 0xe6db99e5, 0x1fa27cf8, 0xc4ac5665,
   0xf4292244, 0x432aff97, 0xab9423a7, 0xfc93a039,
   0x655b59c3, 0x8f0ccc92, 0xffeff47d, 0x85845dd1,
   0x6fa87e4f, 0xfe2ce6e0, 0xa3014314, 0x4e0811a1,
   0xf7537e82, 0xbd3af235, 0x2ad7d2bb, 0xeb86d391]

/-- The 64 MD5 per-round shift amounts. -/
def md5S : List Nat :=
  [7, 12, 17, 22, 7, 12, 17, 22, 7, 12, 17, 22, 7, 12, 17, 22,
   5, 9, 14, 20, 5, 9, 14, 20, 5, 9, 14, 20, 5, 9, 14, 20,
   4, 11, 16, 23, 4, 11, 16, 23, 4, 11, 16, 23, 4, 11, 16, 23,
   6, 10, 15, 21, 6, 10, 15, 21, 6, 10, 15, 21, 6, 10, 15, 21]

/-- The MD5 round mixing function. -/
def md5F (i b c d : Nat) : Nat :=
  if i < 16 then Nat.lor (Nat.land b c) (Nat.land (not32 b) d)
  else if i < 32 then Nat.lor (Nat.land d b) (Nat.land (not32 d) c)
  else if i < 48 then Nat.xor b (Nat.xor c d)
  else Nat.xor c (Nat.lor b (not32 d))

/-- The MD5 message-word schedule index. -/
def md5G (i : Nat) : Nat :=
  if i < 16 then i
  else if i < 32 then (5 * i + 1) % 16
  else if i < 48 then (3 * i + 5) % 16
  else (7 * i) % 16

/-- Read the `g`-th little-endian 32-bit word of a 64-byte block. -/
def getWord (blk : List Nat) (g : Nat) : Nat :=
  blk.getD (4 * g) 0 + 256 * blk.getD (4 * g + 1) 0
    + 65536 * blk.getD (4 * g + 2) 0 + 16777216 * blk.getD (4 * g + 3) 0

/-- The four 32-bit MD5 chaining words. -/
structure MD5State where
  a : Nat
  b : Nat
  c : Nat
  d : Nat

/-- One of the 64 MD5 rounds. -/
def md5Step (blk : List Nat) (st : MD5State) (i : Nat) : MD5State :=
  let f := w32 (md5F i st.b st.c st.d + st.a + md5K.getD i 0 + getWord blk (md5G i))
  ⟨st.d, w32 (st.b + rotl32 f (md5S.getD i 0)), st.b, st.c⟩

/-- Process one 64-byte block. -/
def md5Block (st : MD5State) (blk : List Nat) : MD5State :=
  let r := (List.range 64).foldl (md5Step blk) st
  ⟨w32 (st.a + r.a), w32 (st.b + r.b), w32 (st.c + r.c), w32 (st.d + r.d)⟩

/-- Little-endian 8-byte encoding. -/
def le8 (n : Nat) : List Nat :=
  [n % 256, n / 256 % 256, n / 65536 % 256, n / 16777216 % 256,
   n / 4294967296 % 256, n / 1099511627776 % 256,
   n / 281474976710656 % 256, n / 72057594037927936 % 256]

/-- Little-endian 4-byte encoding. -/
def le4 (n : Nat) : List Nat := [n % 256, n / 256 % 256, n / 65536 % 256, n / 16777216 % 256]

/-- MD5 padding: `0x80`, zeros to 56 mod 64, then the bit length mod `2^64`. -/
def md5Pad (msg : List Nat) : List Nat :=
  let r := (msg.length + 1) % 64
  msg ++ [128] ++ List.replicate ((120 - r) % 64) 0
    ++ le8 (msg.length * 8 % 18446744073709551616)

/-- Split a byte list into 64-byte blocks. -/
def chunks64 (l : List Nat) : List (List Nat) :=
  if h : l = [] then [] else l.take 64 :: chunks64 (l.drop 64)
termination_by l.length
decreasing_by
  simp only [List.length_drop]
  have : 0 < l.length := List.length_pos.mpr h
  omega

/-- UTF-8 encoding of one code point (Python `str.encode()`). -/
def utf8Bytes (c : Char) : List Nat :=
  let n := c.toNat
  if n < 128 then [n]
  else if n < 2048 then [192 + n / 64, 128 + n % 64]
  else if n < 65536 then [224 + n / 4096, 128 + n / 64 % 64, 128 + n % 64]
  else [240 + n / 262144, 128 + n / 4096 % 64, 128 + n / 64 % 64, 128 + n % 64]

/-- UTF-8 bytes of a string. -/
def strBytes (s : String) : List Nat := (s.data.map utf8Bytes).flatten

/-- The 16-byte MD5 digest of a byte list. -/
def md5Digest (msg : List Nat) : List Nat :=
  let st := (chunks64 (md5Pad msg)).foldl md5Block
    ⟨0x67452301, 0xefcdab89, 0x98badcfe, 0x10325476⟩
  le4 st.a ++ le4 st.b ++ le4 st.c ++ le4 st.d

/-- Lower-case hexadecimal alphabet. -/
def hexAlphabet : List Char := "0123456789abcdef".data

/-- Hex digit of a nibble. -/
def hexDigit (n : Nat) : Char := hexAlphabet.getD n '0'

/-- Two hex digits of a byte. -/
def byteHex (b : Nat) : List Char := [hexDigit (b / 16 % 16), hexDigit (b % 16)]

/-- Python `hashlib.md5(s.encode()).hexdigest()`. -/
def md5Hex (s : String) : String := ⟨((md5Digest (strBytes s)).map byteHex).flatten⟩

/-! ## Data model (`DocumentChunk`, `ChunkingConfig`) -/

/-- The `metadata` dict attached to every chunk by `_create_chunk`. -/
structure ChunkMetadata where
  has_images : Bool
  image_count : Nat
  text_length : Nat
deriving DecidableEq

/-- `DocumentChunk` of `document_parser.py`.  The Python field `section` is a
Lean keyword and is rendered `sectionName`. -/
structure DocumentChunk where
  chunk_id : String
  text : String
  source_file : String
  sectionName : String
  page_number : Nat
  images : List String
  metadata : ChunkMetadata
deriving DecidableEq

/-- `ChunkingConfig` of `document_parser.py` with its default values.
The `title_patterns` field is omitted: it is only consulted by the section
grouper, which none of the verified claims depend on. -/
structure ChunkingConfig where
  max_chunk_size : Nat := 800
  min_chunk_size : Nat := 100
  chunk_overlap : Nat := 100
  split_by_title : Bool := true
  split_by_paragraph : Bool := true
  force_max_size : Bool := true
  distribute_images_evenly : Bool := true
deriving DecidableEq

/-- `_create_chunk`: stamps the identity
`md5(f"{source_file}:{section}:{text[:100]}").hexdigest()[:12]` and the derived
metadata. -/
def create_chunk (text source_file sec : String) (images : List String)
    (page_number : Nat) : DocumentChunk :=
  { chunk_id := takePy (md5Hex (source_file ++ ":" ++ sec ++ ":" ++ takePy text 100)) 12
    text := text
    source_file := source_file
    sectionName := sec
    page_number := page_number
    images := images
    metadata :=
      { has_images := decide (0 < images.length)
        image_count := images.length
        text_length := pyLen text } }

/-! ## `_split_by_characters` (fixed-size windows with overlap) -/

/-- The sentence terminators searched by `_split_by_characters`. -/
def sentenceSeps : List Char := ['。', '！', '？', '.', '!', '?']

/-- Index of the last occurrence of `c` (Python `s.rfind(c)`, `none` for `-1`). -/
def rfindIdx (cs : List Char) (c : Char) : Option Nat :=
  match cs with
  | [] => none
  | a :: as =>
    match rfindIdx as c with
    | some k => some (k + 1)
    | none => if a = c then some 0 else none

/-- The right edge of the window starting at `start`: `min (start + max, L)`,
moved back to just after the last sentence terminator found in the last 30% of
the window.  The Python comparison `last_sep > max_chunk_size * 0.7` uses a
float; it is modelled exactly as the rational test `10 * last_sep > 7 * max`,
which can only differ within one float ulp of the threshold. -/
def windowEnd (cfg : ChunkingConfig) (text : List Char) (start : Nat) : Nat :=
  let e0 := min (start + cfg.max_chunk_size) text.length
  if e0 < text.length then
    match sentenceSeps.findSome? (fun sep =>
        match rfindIdx ((text.take e0).drop start) sep with
        | some last_sep =>
            if 10 * last_sep > 7 * cfg.max_chunk_size then some (start + last_sep + 1) else none
        | none => none) with
    | some e => e
    | none => e0
  else e0

/-- The next window start: `max(start + 1, end - chunk_overlap)` when
overlapping and not exhausted, else `end` (`Nat` subtraction clamps at 0
exactly like Python's `max` with a negative argument). -/
def nextStart (cfg : ChunkingConfig) (textLen e start : Nat) : Nat :=
  if 0 < cfg.chunk_overlap ∧ e < textLen then max (start + 1) (e - cfg.chunk_overlap) else e

/-- The `while start < text_length` loop of `_split_by_characters`.  `fuel`
bounds the number of iterations; `fuel = text.length` suffices whenever
`max_chunk_size ≥ 1` (see the termination theorem), and the Python loop does
not terminate in exactly the cases where the fuel runs out. -/
def split_by_characters_go (cfg : ChunkingConfig) (sf sec : String) (images : List String)
    (page : Nat) (text : List Char) : Nat → Nat → List DocumentChunk → List DocumentChunk
  | 0, _, chunks => chunks
  | fuel + 1, start, chunks =>
    if start < text.length then
      let e := windowEnd cfg text start
      let chunk_text := pyStripL ((text.take e).drop start)
      let chunks1 :=
        if chunk_text = [] then chunks
        else chunks ++ [create_chunk ⟨chunk_text⟩ sf sec (if chunks = [] then images else []) page]
      split_by_characters_go cfg sf sec images page text fuel (nextStart cfg text.length e start) chunks1
    else chunks

/-- `_split_by_characters`. -/
def split_by_characters (cfg : ChunkingConfig) (text : String) (sf sec : String)
    (images : List String) (page : Nat) : List DocumentChunk :=
  split_by_characters_go cfg sf sec images page text.data text.data.length 0 []

/-! ## Fenced-code protection (`protect_code_block` / `restore_code_blocks`) -/

/-- The backtick character. -/
def tick : Char := Char.ofNat 96

/-- Does the list start with three backticks? -/
def startsWithTicks : List Char → Bool
  | a :: b :: c :: _ => (a == tick) && (b == tick) && (c == tick)
  | _ => false

/-- Split at the first position where three backticks start, returning the
part before it and the suffix beginning with the backticks. -/
def breakAtTicks : List Char → Option (List Char × List Char)
  | [] => none
  | c :: cs =>
    if startsWithTicks (c :: cs) then some ([], c :: cs)
    else
      match breakAtTicks cs with
      | none => none
      | some (p, s) => some (c :: p, s)

/-- The in-text marker `__CODE_BLOCK_{i}__`. -/
def placeholderOf (i : Nat) : String := "__CODE_BLOCK_" ++ Nat.repr i ++ "__"

/-- Worker for the regex substitution of `r"(```[\s\S]*?```)"`: repeatedly take
the leftmost pair of backtick fences (lazy inner match) and replace the fenced
region, delimiters included, by an index-bearing placeholder. -/
def protectGo : Nat → Nat → List Char → List Char × List String
  | 0, _, cs => (cs, [])
  | fuel + 1, idx, cs =>
    match breakAtTicks cs with
    | none => (cs, [])
    | some (pre, rest) =>
      match breakAtTicks (rest.drop 3) with
      | none => (cs, [])
      | some (body, close) =>
        let block : String := ⟨[tick, tick, tick] ++ body ++ [tick, tick, tick]⟩
        let t := protectGo fuel (idx + 1) (close.drop 3)
        (pre ++ (placeholderOf idx).data ++ t.1, block :: t.2)

/-- Protect every fenced code block of `text`, returning the protected text and
the table of extracted blocks. -/
def protectCodeBlocks (text : String) : String × List String :=
  let r := protectGo text.data.length 0 text.data
  (⟨r.1⟩, r.2)

/-- `restore_code_blocks` inner loop: literal textual replacement of
`__CODE_BLOCK_{i}__` by `code_blocks[i]`, for `i` ascending. -/
def restoreGo (code_blocks : List String) (i : Nat) (t : String) : String :=
  match code_blocks with
  | [] => t
  | cb :: cbs => restoreGo cbs (i + 1) (strReplace t (placeholderOf i) cb)

/-- `restore_code_blocks`. -/
def restore_code_blocks (code_blocks : List String) (t : String) : String :=
  restoreGo code_blocks 0 t

/-- `para.startswith("__CODE_BLOCK_") and para.endswith("__")`. -/
def isCodePlaceholder (para : String) : Bool :=
  strStartsWith para "__CODE_BLOCK_" && strEndsWith para "__"

/-- `para.replace("__CODE_BLOCK_", "").replace("__", "")`. -/
def placeholderStripped (para : String) : String :=
  strReplace (strReplace para "__CODE_BLOCK_" "") "__" ""

/-- The `actual_para_len` computation: the restored length of a code-block
placeholder, the literal length otherwise.  Negative indices wrap as in Python;
the uncaught `IndexError` on an out-of-range negative index (impossible for
genuine placeholders) is modelled as falling back to the literal length. -/
def actualParaLen (code_blocks : List String) (para : String) : Nat :=
  if isCodePlaceholder para then
    match pyInt? (placeholderStripped para) with
    | some idx =>
      if idx < (code_blocks.length : Int) then
        if 0 ≤ idx then
          match code_blocks.get? idx.toNat with
          | some cb => pyLen cb
          | none => pyLen para
        else if 0 ≤ idx + (code_blocks.length : Int) then
          match code_blocks.get? (idx + (code_blocks.length : Int)).toNat with
          | some cb => pyLen cb
          | none => pyLen para
        else pyLen para
      else pyLen para
    | none => pyLen para
  else pyLen para

/-! ## The paragraph-accumulation loop of `_split_text_with_overlap`

The loop is embedded with two ghost fields per emitted chunk: `units`, the list
of protected paragraph units whose join-and-restore is the chunk's text, and
`seeded`, whether the chunk's buffer was created by overlap seeding (its first
unit duplicated from the previous chunk).  Dropping the ghost fields (the
`.chunk` projection) gives exactly the Python loop's output. -/

/-- A produced chunk together with ghost provenance. -/
structure GChunk where
  chunk : DocumentChunk
  units : List String
  seeded : Bool
deriving DecidableEq

/-- The loop state: emitted chunks, the accumulation buffer
(`current_chunk_text`), its budgeted length (`current_length`), and the ghost
flag saying whether the current buffer was overlap-seeded. -/
structure SegState where
  chunks : List GChunk
  current_chunk_text : List String
  current_length : Nat
  buffer_seeded : Bool

/-- Flush the buffer into a chunk: `create_chunk(restore("\n".join(buffer)),
..., images if not chunks else [])`. -/
def flushG (sf sec : String) (images : List String) (page : Nat) (code_blocks : List String)
    (chunks : List GChunk) (buffer : List String) (seeded : Bool) : GChunk :=
  ⟨create_chunk (restore_code_blocks code_blocks (joinNL buffer)) sf sec
      (if chunks = [] then images else []) page,
    buffer, seeded⟩

/-- One iteration of the `for para in paragraphs` loop (lines 746-820 of the
source): forced character splitting of an oversized plain paragraph; overflow
flush with optional overlap seeding (the guard tests whether the *incoming*
paragraph is a placeholder); or plain accumulation. -/
def segStep (cfg : ChunkingConfig) (sf sec : String) (images : List String) (page : Nat)
    (code_blocks : List String) (st : SegState) (para : String) : SegState :=
  let actual_para_len := actualParaLen code_blocks para
  if cfg.max_chunk_size < actual_para_len ∧ isCodePlaceholder para = false then
    let chunks1 :=
      if st.current_chunk_text = [] then st.chunks
      else st.chunks ++ [flushG sf sec images page code_blocks st.chunks
        st.current_chunk_text st.buffer_seeded]
    let sub := (split_by_characters cfg (restore_code_blocks code_blocks para) sf sec [] page).map
      (fun c => ⟨c, [], false⟩)
    ⟨chunks1 ++ sub, [], 0, false⟩
  else if cfg.max_chunk_size < st.current_length + actual_para_len then
    let chunks1 :=
      if st.current_chunk_text = [] then st.chunks
      else st.chunks ++ [flushG sf sec images page code_blocks st.chunks
        st.current_chunk_text st.buffer_seeded]
    if 0 < cfg.chunk_overlap ∧ st.current_chunk_text ≠ [] ∧ isCodePlaceholder para = false then
      let overlap_text := st.current_chunk_text.getLastD ""
      ⟨chunks1, [overlap_text, para], pyLen overlap_text + actual_para_len, true⟩
    else
      ⟨chunks1, [para], actual_para_len, false⟩
  else
    ⟨st.chunks, st.current_chunk_text ++ [para], st.current_length + actual_para_len,
      st.buffer_seeded⟩

/-- The full paragraph loop followed by the final buffer flush. -/
def processParas (cfg : ChunkingConfig) (sf sec : String) (images : List String) (page : Nat)
    (code_blocks : List String) (paragraphs : List String) : List GChunk :=
  let st := paragraphs.foldl (segStep cfg sf sec images page code_blocks) ⟨[], [], 0, false⟩
  if st.current_chunk_text = [] then st.chunks
  else st.chunks ++ [flushG sf sec images page code_blocks st.chunks
    st.current_chunk_text st.buffer_seeded]

/-- `_split_text_with_overlap`: early return on short *raw* text, then either
the paragraph-aware strategy on the protected text or the character-window
strategy on the raw text. -/
def split_text_with_overlap (cfg : ChunkingConfig) (text : String) (sf sec : String)
    (images : List String) (page : Nat) : List DocumentChunk :=
  let pr := protectCodeBlocks text
  if pyLen text ≤ cfg.max_chunk_size then
    [create_chunk text sf sec images page]
  else if cfg.split_by_paragraph then
    let paragraphs := ((splitNL pr.1).map pyStrip).filter (fun p => p ≠ "")
    (processParas cfg sf sec images page pr.2 paragraphs).map (fun g => g.chunk)
  else
    split_by_characters cfg text sf sec images page

/-! ## `_distribute_images_to_chunks` -/

/-- `enumerate`-style map. -/
def mapIdxFrom {α β : Type} (f : Nat → α → β) : Nat → List α → List β
  | _, [] => []
  | i, a :: as => f i a :: mapIdxFrom f (i + 1) as

/-- The even branch of `_distribute_images_to_chunks`.  The Python locals are
inlined: `images_per_chunk = max(1, len(images) // len(chunks))`,
`start_idx = i * images_per_chunk`, and
`end_idx = len(images)` for the last chunk, `start_idx + images_per_chunk`
otherwise; `chunk.images` is *assigned* the slice and the two image metadata
fields are refreshed. -/
def distributeEven (chunks : List DocumentChunk) (images : List String) : List DocumentChunk :=
  mapIdxFrom (fun i chunk =>
    { chunk with
      images := pySlice images (i * max 1 (images.length / chunks.length))
        (if i = chunks.length - 1 then images.length
         else i * max 1 (images.length / chunks.length) + max 1 (images.length / chunks.length))
      metadata := { chunk.metadata with
        image_count := (pySlice images (i * max 1 (images.length / chunks.length))
          (if i = chunks.length - 1 then images.length
           else i * max 1 (images.length / chunks.length)
             + max 1 (images.length / chunks.length))).length
        has_images := decide (0 < (pySlice images (i * max 1 (images.length / chunks.length))
          (if i = chunks.length - 1 then images.length
           else i * max 1 (images.length / chunks.length)
             + max 1 (images.length / chunks.length))).length) } }) 0 chunks

/-- `_distribute_images_to_chunks`: even contiguous slices or concentration in
the first chunk. -/
def distribute_images_to_chunks (cfg : ChunkingConfig) (chunks : List DocumentChunk)
    (images : List String) : List DocumentChunk :=
  if images = [] ∨ chunks = [] then chunks
  else if cfg.distribute_images_evenly then distributeEven chunks images
  else
    match chunks with
    | [] => []
    | c :: rest =>
      { c with
        images := images
        metadata := { c.metadata with image_count := images.length, has_images := true } } :: rest

/-! ## `parse` dispatch (`OptimizedDocumentParser.parse`) -/

/-- The typed errors of the parser's failure policy (`ValueError` for an
unsupported extension, `ImportError` for a missing optional dependency). -/
inductive ParseError where
  | unsupportedFormat (suffix : String)
  | missingDependency (msg : String)
deriving DecidableEq

/-- The format adapter selected by `parse`. -/
inductive DocFormat where
  | docx
  | markdown
  | pdf
deriving DecidableEq

/-- `pathlib.PurePath.name`: the final path component. -/
def lastComponent (p : String) : String :=
  match ((splitCharOn '/' p.data).filter (fun cs => cs ≠ [])).getLast? with
  | some cs => ⟨cs⟩
  | none => ""

/-- `pathlib.PurePath.suffix`: the extension of the final component, empty for
hidden files and names ending in a dot. -/
def pathSuffix (p : String) : String :=
  let name := (lastComponent p).data
  match rfindIdx name '.' with
  | some i => if 0 < i ∧ i < name.length - 1 then ⟨name.drop i⟩ else ""
  | none => ""

/-- Python `s.lower()`. -/
def pyLower (s : String) : String := ⟨s.data.map Char.toLower⟩

/-- The extension dispatch at the top of `parse`: a pure function of the path
string, evaluated before any adapter (and hence any file access) runs. -/
def parseFormatOf (file_path : String) : Except ParseError DocFormat :=
  let suffix := pyLower (pathSuffix file_path)
  if suffix = ".docx" then .ok .docx
  else if suffix = ".md" then .ok .markdown
  else if suffix = ".pdf" then .ok .pdf
  else .error (.unsupportedFormat suffix)

/-! ## Concrete inputs used by witnesses and counterexamples -/

/-- The default configuration. -/
def cfgDefault : ChunkingConfig := {}

/-- Defaults with `max_chunk_size = 10`. -/
def cfgMax10 : ChunkingConfig := { max_chunk_size := 10 }

/-- Defaults with `max_chunk_size = 20`. -/
def cfgMax20 : ChunkingConfig := { max_chunk_size := 20 }

/-- `max_chunk_size = 3`, no overlap, character-window strategy. -/
def cfgChar3 : ChunkingConfig :=
  { max_chunk_size := 3, chunk_overlap := 0, split_by_paragraph := false }

/-- Two five-character paragraphs: budgeted sum 10, joined length 11. -/
def textC1 : String := "aaaaa\nbbbbb"

/-- An eight-character paragraph followed by an inline image placeholder token. -/
def textC3 : String := "aaaaaaaa\n[IMG:p]"

/-- A short fenced code block followed by a plain paragraph. -/
def textC5 : String := "```ab```\nxxxxxxxx"

/-- Five characters with an interior space. -/
def textC6 : String := "ab cd"

/-- A 30-character fenced code block (16-character placeholder) plus `"\nxx"`. -/
def textC7 : String := "```aaaaaaaaaaaaaaaaaaaaaaaa```\nxx"

/-- A default chunk used with `List.getD`. -/
def dummyChunk : DocumentChunk := ⟨"", "", "", "", 0, [], ⟨false, 0, 0⟩⟩

/-- A default ghost chunk used with `List.getD`. -/
def dummyG : GChunk := ⟨dummyChunk, [], false⟩

/-- The non-duplicated units of a chunk: drop the overlap-seeded leading unit. -/
def dedupUnits (g : GChunk) : List String := if g.seeded then g.units.tail else g.units

/-- Overlap law on a chunk list: every seeded chunk starts with the trailing
unit of its predecessor. -/
def AdjProp (l : List GChunk) : Prop :=
  ∀ i, i + 1 < l.length → (l.getD (i + 1) dummyG).seeded = true →
    (l.getD (i + 1) dummyG).units ≠ []
      ∧ (l.getD (i + 1) dummyG).units.head? = (l.getD i dummyG).units.getLast?

/-- Invariant tying a seeded buffer to the chunk it was seeded from: the buffer
is non-empty and its head is the trailing unit of the last emitted chunk. -/
def SeedProp (st : SegState) : Prop :=
  st.buffer_seeded = true →
    st.current_chunk_text ≠ [] ∧ st.chunks ≠ []
      ∧ st.current_chunk_text.head? = ((st.chunks.getLastD dummyG).units).getLast?

/-- Reconstruction invariant: the de-duplicated units of the emitted chunks
followed by the (de-duplicated) buffer are exactly the paragraphs consumed so
far. -/
def ReconProp (st : SegState) (processed : List String) : Prop :=
  ((st.chunks.map dedupUnits).flatten)
      ++ (if st.buffer_seeded then st.current_chunk_text.tail else st.current_chunk_text)
    = processed

/-- All chunks after the first have empty image lists. -/
def TailEmptyImages (l : List DocumentChunk) : Prop :=
  ∀ j, 1 ≤ j → j < l.length → (l.getD j dummyChunk).images = []

/-- The first chunk's image list is either the full section list or empty. -/
def HeadImagesOk (images : List String) (l : List DocumentChunk) : Prop :=
  l ≠ [] → (l.getD 0 dummyChunk).images = images ∨ (l.getD 0 dummyChunk).images = []

/-- `TailEmptyImages` through the ghost wrapper. -/
def TailEmptyImagesG (l : List GChunk) : Prop :=
  ∀ j, 1 ≤ j → j < l.length → ((l.getD j dummyG).chunk).images = []

/-- `HeadImagesOk` through the ghost wrapper. -/
def HeadImagesOkG (images : List String) (l : List GChunk) : Prop :=
  l ≠ [] → ((l.getD 0 dummyG).chunk).images = images ∨ ((l.getD 0 dummyG).chunk).images = []

/-- Three concrete chunks. -/
def chunksC4 : List DocumentChunk :=
  [create_chunk "t1" "f" "s" [] 0, create_chunk "t2" "f" "s" [] 0, create_chunk "t3" "f" "s" [] 0]

/-- Five orphan images. -/
def imagesC4 : List String := ["i1", "i2", "i3", "i4", "i5"]

/-- Two eight-character paragraph units. -/
def parasC5 : List String := ["aaaaaaaa", "bbbbbbbb"]

/-- Three short paragraph units. -/
def parasC6 : List String := ["aaaaaaaa", "bbbb", "cc"]

/-! ## General list helper lemmas -/

theorem getD_append_left {α : Type} (l1 l2 : List α) (d : α) {j : Nat} (h : j < l1.length) :
    (l1 ++ l2).getD j d = l1.getD j d := by
  rw [List.getD_eq_getElem?_getD, List.getD_eq_getElem?_getD, List.getElem?_append_left h]

theorem getD_append_right {α : Type} (l1 l2 : List α) (d : α) {j : Nat} (h : l1.length ≤ j) :
    (l1 ++ l2).getD j d = l2.getD (j - l1.length) d := by
  rw [List.getD_eq_getElem?_getD, List.getD_eq_getElem?_getD, List.getElem?_append_right h]

theorem getD_mem {α : Type} (l : List α) (d : α) {j : Nat} (h : j < l.length) :
    l.getD j d ∈ l := by
  rw [List.getD_eq_getElem?_getD, List.getElem?_eq_getElem h]
  exact List.getElem_mem h

theorem getLastD_eq_getD {α : Type} (l : List α) (d : α) :
    l.getLastD d = l.getD (l.length - 1) d := by
  rw [List.getLastD_eq_getLast?, List.getLast?_eq_getElem?, List.getD_eq_getElem?_getD]

theorem getLast?_eq_some_getLastD {α : Type} (l : List α) (d : α) (h : l ≠ []) :
    l.getLast? = some (l.getLastD d) := by
  rw [List.getLastD_eq_getLast?]
  cases hl : l.getLast? with
  | none => exact absurd (List.getLast?_eq_none_iff.mp hl) h
  | some a => rfl

theorem head?_append_of_ne_nil {α : Type} (l1 l2 : List α) (h : l1 ≠ []) :
    (l1 ++ l2).head? = l1.head? := by
  cases l1 with
  | nil => exact absurd rfl h
  | cons a as => rfl

/-! ## Shape of the MD5 hex digest -/

theorem md5Digest_length (msg : List Nat) : (md5Digest msg).length = 16 := rfl

theorem hexDigit_mem (n : Nat) : hexDigit n ∈ hexAlphabet := by
  unfold hexDigit
  rw [List.getD_eq_getElem?_getD]
  cases h : hexAlphabet[n]? with
  | none => simp only [Option.getD_none]; decide
  | some c =>
    simp only [Option.getD_some]
    obtain ⟨hlt, rfl⟩ := List.getElem?_eq_some.mp h
    exact List.getElem_mem hlt

theorem byteHex_mem (b : Nat) : ∀ c ∈ byteHex b, c ∈ hexAlphabet := by
  intro c hc
  simp only [byteHex, List.mem_cons, List.not_mem_nil, or_false] at hc
  rcases hc with rfl | rfl
  · exact hexDigit_mem _
  · exact hexDigit_mem _

theorem md5Hex_length (s : String) : (md5Hex s).data.length = 32 := by
  show (((md5Digest (strBytes s)).map byteHex).flatten).length = 32
  rw [List.length_flatten]
  have h2 : ∀ l : List Nat, (List.map List.length (l.map byteHex)).sum = 2 * l.length := by
    intro l
    induction l with
    | nil => rfl
    | cons a as ih =>
      simp only [List.map_cons, List.sum_cons, ih, List.length_cons, byteHex, List.length]
      ring
  rw [h2, md5Digest_length]

theorem md5Hex_mem_hex (s : String) : ∀ c ∈ (md5Hex s).data, c ∈ hexAlphabet := by
  intro c hc
  have h : c ∈ ((md5Digest (strBytes s)).map byteHex).flatten := hc
  rw [List.mem_flatten] at h
  obtain ⟨l, hl, hcl⟩ := h
  rw [List.mem_map] at hl
  obtain ⟨b, _, rfl⟩ := hl
  exact byteHex_mem b c hcl

/-! ## Claims -/

/-- C1: the claim "for every document parse with `force_max_size` true, every
produced `DocumentChunk` satisfies `len(chunk.text) <= max_chunk_size` unless
the chunk is a single atomic code block or indivisible forced-split unit" is
violated by the code: with `max_chunk_size = 10` (and `force_max_size = true`,
which the source never reads anywhere), the section text `"aaaaa\nbbbbb"` is
budgeted as 5 + 5 = 10 because the loop sums paragraph lengths without the
joining newlines, so the splitter emits the single 11-character chunk
`"aaaaa\nbbbbb"`, which contains no fenced code region and was not
force-split. -/
theorem c1_size_bound_violated :
    cfgMax10.force_max_size = true ∧ cfgMax10.max_chunk_size = 10
      ∧ (split_text_with_overlap cfgMax10 textC1 "f" "s" [] 0).map (fun c => c.text)
          = ["aaaaa\nbbbbb"]
      ∧ pyLen "aaaaa\nbbbbb" = 11
      ∧ hasSubstr "aaaaa\nbbbbb" "```" = false := by
  decide

/-- C2: `chunk_id` is the first 12 characters of the MD5 hex digest of
`source_file ++ ":" ++ section ++ ":" ++ text[:100]`; it is 12 characters
long, all lower-case hex; and it depends on the text only through `text[:100]`
(so re-parsing identical input yields identical id sequences, the embedding
being a pure function). -/
theorem c2_chunk_id_digest (text text2 sf sec : String) (images images2 : List String)
    (page page2 : Nat) (hpre : takePy text2 100 = takePy text 100) :
    (create_chunk text sf sec images page).chunk_id
        = takePy (md5Hex (sf ++ ":" ++ sec ++ ":" ++ takePy text 100)) 12
      ∧ pyLen (create_chunk text sf sec images page).chunk_id = 12
      ∧ (∀ c ∈ (create_chunk text sf sec images page).chunk_id.data, c ∈ hexAlphabet)
      ∧ (create_chunk text2 sf sec images2 page2).chunk_id
          = (create_chunk text sf sec images page).chunk_id := by
  refine ⟨rfl, ?_, ?_, ?_⟩
  · show (((md5Hex (sf ++ ":" ++ sec ++ ":" ++ takePy text 100)).data).take 12).length = 12
    rw [List.length_take, md5Hex_length]
    decide
  · intro c hc
    have h : c ∈ (md5Hex (sf ++ ":" ++ sec ++ ":" ++ takePy text 100)).data :=
      List.take_subset 12 _ hc
    exact md5Hex_mem_hex _ c h
  · show takePy (md5Hex (sf ++ ":" ++ sec ++ ":" ++ takePy text2 100)) 12
        = takePy (md5Hex (sf ++ ":" ++ sec ++ ":" ++ takePy text 100)) 12
    rw [hpre]

/-- C2 witness: the theorem applied to concrete inputs. -/
theorem c2_chunk_id_digest_witness :
    (create_chunk "hello world" "f.md" "intro" ["x"] 3).chunk_id
        = takePy (md5Hex ("f.md" ++ ":" ++ "intro" ++ ":" ++ takePy "hello world" 100)) 12
      ∧ pyLen (create_chunk "hello world" "f.md" "intro" ["x"] 3).chunk_id = 12
      ∧ (∀ c ∈ (create_chunk "hello world" "f.md" "intro" ["x"] 3).chunk_id.data,
          c ∈ hexAlphabet)
      ∧ (create_chunk "hello world" "f.md" "intro" [] 0).chunk_id
          = (create_chunk "hello world" "f.md" "intro" ["x"] 3).chunk_id :=
  c2_chunk_id_digest "hello world" "hello world" "f.md" "intro" ["x"] [] 3 0 rfl

/-- C7 counterexample: the short-circuit tests the *raw* text length, not the
protected text's.  For `textC7` (a 30-character fenced block plus `"\nxx"`,
raw length 33) the protected text is the 19-character
`"__CODE_BLOCK_0__\nxx"`, within `max_chunk_size = 20`, yet two chunks are
emitted — refuting "if the protected text's length is at most
`max_chunk_size`, exactly one chunk is emitted". -/
theorem c7_short_circuit_counterexample :
    pyLen (protectCodeBlocks textC7).1 = 19
      ∧ pyLen (protectCodeBlocks textC7).1 ≤ cfgMax20.max_chunk_size
      ∧ (split_text_with_overlap cfgMax20 textC7 "f" "s" [] 0).length = 2 := by
  decide

/-- C7 (amended): if the *raw* text's length is at most `max_chunk_size`, the
segmenter emits exactly the one chunk built from the whole text. -/
theorem c7_short_circuit_raw_length (cfg : ChunkingConfig) (text sf sec : String)
    (images : List String) (page : Nat) (h : pyLen text ≤ cfg.max_chunk_size) :
    split_text_with_overlap cfg text sf sec images page
      = [create_chunk text sf sec images page] := by
  unfold split_text_with_overlap
  rw [if_pos h]

/-- C7 witness: the amended theorem applied to a concrete short text. -/
theorem c7_short_circuit_raw_length_witness :
    split_text_with_overlap cfgMax10 "abc" "f" "s" ["p"] 2
      = [create_chunk "abc" "f" "s" ["p"] 2] :=
  c7_short_circuit_raw_length cfgMax10 "abc" "f" "s" ["p"] 2 (by decide)

/-- C9: for any path whose lowercased `pathlib` suffix is not one of `.docx`,
`.md`, `.pdf`, the dispatch at the top of `parse` yields the
unsupported-format error carrying that suffix.  The dispatch is a pure
function of the path string — it runs before any adapter, so no file is read
or written before the error is raised. -/
theorem c9_unsupported_extension (file_path : String)
    (h : pyLower (pathSuffix file_path) ∉ ([".docx", ".md", ".pdf"] : List String)) :
    parseFormatOf file_path
      = Except.error (ParseError.unsupportedFormat (pyLower (pathSuffix file_path))) := by
  simp only [List.mem_cons, List.not_mem_nil, or_false, not_or] at h
  obtain ⟨h1, h2, h3⟩ := h
  unfold parseFormatOf
  rw [if_neg h1, if_neg h2, if_neg h3]

/-- C9 witness: a `.txt` path fails with the unsupported-format error. -/
theorem c9_unsupported_extension_witness :
    parseFormatOf "dir/report.txt" = Except.error (ParseError.unsupportedFormat ".txt") :=
  c9_unsupported_extension "dir/report.txt" (by decide)

/-- C3 counterexample: with `max_chunk_size = 10`, the section
`"aaaaaaaa\n[IMG:p]"` with image list `["p"]` splits into two chunks; the
second chunk's text physically contains the inline token `"[IMG:p]"` but its
image list is empty — refuting "every `[IMG:path]` token occurring in
`chunk.text` has `path` present in `chunk.images`" (nothing re-attaches inline
tokens to later chunks). -/
theorem c3_image_token_counterexample :
    (split_text_with_overlap cfgMax10 textC3 "f" "s" ["p"] 0).map (fun c => (c.text, c.images))
        = [("aaaaaaaa", ["p"]), ("aaaaaaaa\n[IMG:p]", [])]
      ∧ hasSubstr "aaaaaaaa\n[IMG:p]" "[IMG:p]" = true := by
  decide

/-- C4 counterexample: 5 orphan images over 3 chunks yield slices of sizes
1, 1, 3 (`images_per_chunk = max(1, 5 // 3) = 1`, remainder to the last
chunk), not the 2, 2, 1 stated by the claim. -/
theorem c4_five_over_three_counterexample :
    (distribute_images_to_chunks cfgDefault chunksC4 imagesC4).map (fun c => c.images.length)
        = [1, 1, 3]
      ∧ ¬ ((distribute_images_to_chunks cfgDefault chunksC4 imagesC4).map
            (fun c => c.images.length) = [2, 2, 1]) := by
  decide

/-- C5 counterexample: the seeding guard tests whether the *incoming*
paragraph is a protected region, not the trailing unit of the flushed chunk.
For `textC5` the first chunk is exactly the fenced block ```` ```ab``` ````,
and it *is* duplicated as the leading overlap unit of the second chunk —
refuting "a protected region is never duplicated as overlap". -/
theorem c5_protected_region_duplicated :
    0 < cfgMax10.chunk_overlap
      ∧ (split_text_with_overlap cfgMax10 textC5 "f" "s" [] 0).map (fun c => c.text)
          = ["```ab```", "```ab```\nxxxxxxxx"] := by
  decide

/-! ### Distributor lemmas (C4, C10) -/

theorem mapIdxFrom_length {α β : Type} (f : Nat → α → β) (k : Nat) (l : List α) :
    (mapIdxFrom f k l).length = l.length := by
  induction l generalizing k with
  | nil => rfl
  | cons a as ih => simp [mapIdxFrom, ih]

theorem mapIdxFrom_getD {α β : Type} (f : Nat → α → β) (l : List α) (dα : α) (dβ : β)
    (k : Nat) : ∀ j, j < l.length → (mapIdxFrom f k l).getD j dβ = f (k + j) (l.getD j dα) := by
  induction l generalizing k with
  | nil => intro j h; exact absurd h (by simp)
  | cons a as ih =>
    intro j h
    cases j with
    | zero => rfl
    | succ j =>
      show (mapIdxFrom f (k + 1) as).getD j dβ = f (k + (j + 1)) ((a :: as).getD (j + 1) dα)
      rw [List.getD_cons_succ, ih (k + 1) j (by simpa using h)]
      ring_nf

theorem pySlice_length {α : Type} (l : List α) (s e : Nat) :
    (pySlice l s e).length = min e l.length - s := by
  simp [pySlice]

/-- C4 (amended): under the even policy with at least one image and one chunk,
chunk `i` receives the contiguous slice
`images[i*q : i*q + q]` (`q = max(1, len(images) // len(chunks))`), the last
chunk instead extending to the end of the orphan list; when there are at least
as many images as chunks this gives `len(images) // len(chunks)` images to
every non-last chunk and quotient-plus-remainder to the last — so 5 images
over 3 chunks yield sizes 1, 1, 3 (not 2, 2, 1). -/
theorem c4_even_division (cfg : ChunkingConfig) (chunks : List DocumentChunk)
    (images : List String) (hev : cfg.distribute_images_evenly = true)
    (him : images ≠ []) (hch : chunks ≠ []) :
    (distribute_images_to_chunks cfg chunks images).length = chunks.length
      ∧ (∀ i, i < chunks.length →
          ((distribute_images_to_chunks cfg chunks images).getD i dummyChunk).images
            = pySlice images (i * max 1 (images.length / chunks.length))
                (if i = chunks.length - 1 then images.length
                 else i * max 1 (images.length / chunks.length)
                   + max 1 (images.length / chunks.length)))
      ∧ (chunks.length ≤ images.length →
          (∀ i, i + 1 < chunks.length →
            (((distribute_images_to_chunks cfg chunks images).getD i dummyChunk).images).length
              = images.length / chunks.length)
          ∧ (((distribute_images_to_chunks cfg chunks images).getD (chunks.length - 1)
                dummyChunk).images).length
              = images.length / chunks.length + images.length % chunks.length) := by
  have hne : ¬ (images = [] ∨ chunks = []) := by simp [him, hch]
  have hout : distribute_images_to_chunks cfg chunks images = distributeEven chunks images := by
    unfold distribute_images_to_chunks
    rw [if_neg hne, if_pos hev]
  have hn : 0 < chunks.length := List.length_pos.mpr hch
  have hgetD : ∀ i, i < chunks.length →
      ((distribute_images_to_chunks cfg chunks images).getD i dummyChunk).images
        = pySlice images (i * max 1 (images.length / chunks.length))
            (if i = chunks.length - 1 then images.length
             else i * max 1 (images.length / chunks.length)
               + max 1 (images.length / chunks.length)) := by
    intro i hi
    rw [hout]
    unfold distributeEven
    rw [mapIdxFrom_getD _ _ dummyChunk _ 0 i hi]
    simp only [Nat.zero_add]
  refine ⟨by rw [hout]; exact mapIdxFrom_length _ _ _, hgetD, ?_⟩
  intro hle
  have hq : max 1 (images.length / chunks.length) = images.length / chunks.length :=
    Nat.max_eq_right ((Nat.one_le_div_iff hn).mpr hle)
  obtain ⟨m, hm⟩ : ∃ m, chunks.length = m + 1 := ⟨chunks.length - 1, by omega⟩
  have hdm := Nat.div_add_mod images.length chunks.length
  constructor
  · intro i hi
    rw [hgetD i (by omega), if_neg (by omega), pySlice_length, hq]
    have h1 : (i + 1) * (images.length / chunks.length)
        ≤ chunks.length * (images.length / chunks.length) :=
      Nat.mul_le_mul_right _ (by omega)
    have h2 : chunks.length * (images.length / chunks.length) ≤ images.length := by
      rw [Nat.mul_comm]
      exact Nat.div_mul_le_self images.length chunks.length
    have h3 : (i + 1) * (images.length / chunks.length)
        = i * (images.length / chunks.length) + images.length / chunks.length := by ring
    omega
  · rw [hgetD (chunks.length - 1) (by omega), if_pos rfl, pySlice_length, hq]
    have h2 : chunks.length * (images.length / chunks.length) ≤ images.length := by
      rw [Nat.mul_comm]
      exact Nat.div_mul_le_self images.length chunks.length
    have h3 : chunks.length * (images.length / chunks.length)
        = (chunks.length - 1) * (images.length / chunks.length)
          + images.length / chunks.length := by
      rw [hm]
      simp
      ring
    omega

/-- C4 witness: the amended theorem applied to 5 images over 3 chunks. -/
theorem c4_even_division_witness :
    (distribute_images_to_chunks cfgDefault chunksC4 imagesC4).length = chunksC4.length
      ∧ ((distribute_images_to_chunks cfgDefault chunksC4 imagesC4).getD
            (chunksC4.length - 1) dummyChunk).images.length
          = imagesC4.length / chunksC4.length + imagesC4.length % chunksC4.length :=
  ⟨(c4_even_division cfgDefault chunksC4 imagesC4 rfl (by decide) (by decide)).1,
   ((c4_even_division cfgDefault chunksC4 imagesC4 rfl (by decide) (by decide)).2.2
      (by decide)).2⟩

/-- C10: under the even policy (with a non-empty orphan list) the distributor
*replaces* each chunk's `images` with its contiguous orphan slice — whatever
was attached before is discarded — refreshes `metadata.image_count` and
`metadata.has_images` from the new slice, and leaves `chunk_id`, `text`,
`source_file`, `section`, `page_number` and `metadata.text_length` unchanged. -/
theorem c10_distributor_frame (cfg : ChunkingConfig) (chunks : List DocumentChunk)
    (images : List String) (hev : cfg.distribute_images_evenly = true)
    (him : images ≠ []) :
    (distribute_images_to_chunks cfg chunks images).length = chunks.length
      ∧ ∀ i, i < chunks.length →
          ((distribute_images_to_chunks cfg chunks images).getD i dummyChunk).chunk_id
              = (chunks.getD i dummyChunk).chunk_id
            ∧ ((distribute_images_to_chunks cfg chunks images).getD i dummyChunk).text
              = (chunks.getD i dummyChunk).text
            ∧ ((distribute_images_to_chunks cfg chunks images).getD i dummyChunk).source_file
              = (chunks.getD i dummyChunk).source_file
            ∧ ((distribute_images_to_chunks cfg chunks images).getD i dummyChunk).sectionName
              = (chunks.getD i dummyChunk).sectionName
            ∧ ((distribute_images_to_chunks cfg chunks images).getD i dummyChunk).page_number
              = (chunks.getD i dummyChunk).page_number
            ∧ ((distribute_images_to_chunks cfg chunks images).getD i
                  dummyChunk).metadata.text_length
              = (chunks.getD i dummyChunk).metadata.text_length
            ∧ ((distribute_images_to_chunks cfg chunks images).getD i dummyChunk).images
              = pySlice images (i * max 1 (images.length / chunks.length))
                  (if i = chunks.length - 1 then images.length
                   else i * max 1 (images.length / chunks.length)
                     + max 1 (images.length / chunks.length))
            ∧ ((distribute_images_to_chunks cfg chunks images).getD i
                  dummyChunk).metadata.image_count
              = (((distribute_images_to_chunks cfg chunks images).getD i
                  dummyChunk).images).length
            ∧ ((distribute_images_to_chunks cfg chunks images).getD i
                  dummyChunk).metadata.has_images
              = decide (0 < (((distribute_images_to_chunks cfg chunks images).getD i
                  dummyChunk).images).length) := by
  by_cases hch : chunks = []
  · subst hch
    constructor
    · unfold distribute_images_to_chunks
      rw [if_pos (Or.inr rfl)]
    · intro i hi
      exact absurd hi (by simp)
  · have hne : ¬ (images = [] ∨ chunks = []) := by simp [him, hch]
    have hout : distribute_images_to_chunks cfg chunks images = distributeEven chunks images := by
      unfold distribute_images_to_chunks
      rw [if_neg hne, if_pos hev]
    have hstep : ∀ i, i < chunks.length →
        (distribute_images_to_chunks cfg chunks images).getD i dummyChunk
          = (fun i chunk =>
              { chunk with
                images := pySlice images (i * max 1 (images.length / chunks.length))
                  (if i = chunks.length - 1 then images.length
                   else i * max 1 (images.length / chunks.length)
                     + max 1 (images.length / chunks.length))
                metadata := { chunk.metadata with
                  image_count := (pySlice images (i * max 1 (images.length / chunks.length))
                    (if i = chunks.length - 1 then images.length
                     else i * max 1 (images.length / chunks.length)
                       + max 1 (images.length / chunks.length))).length
                  has_images := decide (0 < (pySlice images
                    (i * max 1 (images.length / chunks.length))
                    (if i = chunks.length - 1 then images.length
                     else i * max 1 (images.length / chunks.length)
                       + max 1 (images.length / chunks.length))).length) } })
            i (chunks.getD i dummyChunk) := by
      intro i hi
      rw [hout]
      unfold distributeEven
      rw [mapIdxFrom_getD _ _ dummyChunk _ 0 i hi]
      simp only [Nat.zero_add]
    constructor
    · rw [hout]
      exact mapIdxFrom_length _ _ _
    · intro i hi
      rw [hstep i hi]
      exact ⟨rfl, rfl, rfl, rfl, rfl, rfl, rfl, rfl, rfl⟩

/-- C10 witness: the frame theorem applied to a concrete middle chunk. -/
theorem c10_distributor_frame_witness :
    ((distribute_images_to_chunks cfgDefault chunksC4 imagesC4).getD 1 dummyChunk).text
        = (chunksC4.getD 1 dummyChunk).text
      ∧ ((distribute_images_to_chunks cfgDefault chunksC4 imagesC4).getD 1
            dummyChunk).metadata.text_length
        = (chunksC4.getD 1 dummyChunk).metadata.text_length :=
  ⟨((c10_distributor_frame cfgDefault chunksC4 imagesC4 rfl (by decide)).2 1 (by decide)).2.1,
   ((c10_distributor_frame cfgDefault chunksC4 imagesC4 rfl (by decide)).2 1
      (by decide)).2.2.2.2.2.1⟩

/-! ### Character-loop termination lemmas (C8) -/

theorem windowEnd_gt (cfg : ChunkingConfig) (text : List Char) (start : Nat)
    (hmax : 1 ≤ cfg.max_chunk_size) (hlt : start < text.length) :
    start < windowEnd cfg text start := by
  have he0 : start < min (start + cfg.max_chunk_size) text.length := lt_min (by omega) hlt
  simp only [windowEnd]
  split
  · split
    · next e hfs =>
      obtain ⟨sep, _, hf⟩ := List.exists_of_findSome?_eq_some hfs
      revert hf
      cases rfindIdx ((text.take (min (start + cfg.max_chunk_size) text.length)).drop start)
          sep with
      | none => intro hf; exact absurd hf (by simp)
      | some k =>
        intro hf
        have hf2 : (if 10 * k > 7 * cfg.max_chunk_size then some (start + k + 1)
            else none) = some e := hf
        by_cases hc : 10 * k > 7 * cfg.max_chunk_size
        · rw [if_pos hc] at hf2
          have : e = start + k + 1 := (Option.some_injective _ hf2).symm
          omega
        · rw [if_neg hc] at hf2
          exact absurd hf2 (by simp)
    · exact he0
  · exact he0

theorem nextStart_gt (cfg : ChunkingConfig) (textLen e start : Nat) (he : start < e) :
    start < nextStart cfg textLen e start := by
  unfold nextStart
  split
  · exact Nat.lt_of_lt_of_le (Nat.lt_succ_self start) (Nat.le_max_left _ _)
  · exact he

theorem split_go_exit (cfg : ChunkingConfig) (sf sec : String) (images : List String)
    (page : Nat) (text : List Char) (fuel start : Nat) (chunks : List DocumentChunk)
    (h : text.length ≤ start) :
    split_by_characters_go cfg sf sec images page text fuel start chunks = chunks := by
  cases fuel with
  | zero => rfl
  | succ fuel =>
    simp only [split_by_characters_go]
    rw [if_neg (by omega)]

theorem split_go_fuel_stable (cfg : ChunkingConfig) (sf sec : String) (images : List String)
    (page : Nat) (text : List Char) (hmax : 1 ≤ cfg.max_chunk_size) :
    ∀ fuel k start chunks, text.length ≤ fuel + start →
      split_by_characters_go cfg sf sec images page text fuel start chunks
        = split_by_characters_go cfg sf sec images page text (fuel + k) start chunks := by
  intro fuel
  induction fuel with
  | zero =>
    intro k start chunks h
    rw [Nat.zero_add, split_go_exit cfg sf sec images page text 0 start chunks (by omega),
      split_go_exit cfg sf sec images page text k start chunks (by omega)]
  | succ fuel ih =>
    intro k start chunks h
    by_cases hlt : start < text.length
    · have hk : fuel + 1 + k = (fuel + k) + 1 := by omega
      rw [hk]
      simp only [split_by_characters_go]
      rw [if_pos hlt, if_pos hlt]
      apply ih
      have h1 : start < nextStart cfg text.length (windowEnd cfg text start) start :=
        nextStart_gt cfg text.length _ start (windowEnd_gt cfg text start hmax hlt)
      omega
    · rw [split_go_exit cfg sf sec images page text (fuel + 1) start chunks (by omega),
        split_go_exit cfg sf sec images page text (fuel + 1 + k) start chunks (by omega)]

/-- C8: the character-window loop makes strict progress — from any unexhausted
position the next window start is strictly larger (it is
`max(start + 1, end - chunk_overlap)` under overlap, `end > start` otherwise) —
and therefore terminates within `len(text)` iterations: running the loop with
any extra fuel returns the same chunk list.  (The standing hypothesis
`1 ≤ max_chunk_size` rules out the degenerate zero-width window, for which the
Python loop itself would not terminate.) -/
theorem c8_char_loop_terminates (cfg : ChunkingConfig) (text : String)
    (hmax : 1 ≤ cfg.max_chunk_size) :
    (∀ start, start < text.data.length →
        start < nextStart cfg text.data.length (windowEnd cfg text.data start) start)
      ∧ ∀ sf sec : String, ∀ images : List String, ∀ page k : Nat,
          split_by_characters cfg text sf sec images page
            = split_by_characters_go cfg sf sec images page text.data
                (text.data.length + k) 0 [] := by
  constructor
  · intro start h
    exact nextStart_gt cfg text.data.length _ start (windowEnd_gt cfg text.data start hmax h)
  · intro sf sec images page k
    unfold split_by_characters
    exact split_go_fuel_stable cfg sf sec images page text.data hmax
      text.data.length k 0 [] (by omega)

/-- C8 witness: progress and fuel-stability at a concrete input. -/
theorem c8_char_loop_terminates_witness :
    (0 < nextStart cfgDefault ("ab.".data.length) (windowEnd cfgDefault "ab.".data 0) 0)
      ∧ split_by_characters cfgDefault "ab." "f" "s" [] 0
          = split_by_characters_go cfgDefault "f" "s" [] 0 "ab.".data
              ("ab.".data.length + 2) 0 [] :=
  ⟨(c8_char_loop_terminates cfgDefault "ab." (by decide)).1 0 (by decide),
   (c8_char_loop_terminates cfgDefault "ab." (by decide)).2 "f" "s" [] 0 2⟩

/-- C6 counterexample: with `chunk_overlap = 0` (so no overlap unit is ever
duplicated) the character splitter turns the 5-character section `"ab cd"`
into chunks `"ab"`, `"cd"` holding 4 characters in total: `strip()` discarded
the interior space at the window boundary, so no reassembly of the chunks
reproduces the section text — refuting "no characters of the section text are
lost or altered by segmentation". -/
theorem c6_characters_lost :
    cfgChar3.chunk_overlap = 0
      ∧ (split_text_with_overlap cfgChar3 textC6 "f" "s" [] 0).map (fun c => c.text)
          = ["ab", "cd"]
      ∧ ((split_text_with_overlap cfgChar3 textC6 "f" "s" [] 0).map
          (fun c => pyLen c.text)).sum = 4
      ∧ pyLen textC6 = 5 := by
  decide

/-! ### Segmenter loop invariants (C5, C6) -/

theorem adjProp_nil : AdjProp [] := by
  intro i hi
  exact absurd hi (by simp)

theorem adjProp_append_one (l : List GChunk) (g : GChunk) (hl : AdjProp l)
    (hg : g.seeded = true → l ≠ [] ∧ g.units ≠ []
      ∧ g.units.head? = ((l.getLastD dummyG).units).getLast?) :
    AdjProp (l ++ [g]) := by
  intro i hi hseed
  have hlen : (l ++ [g]).length = l.length + 1 := by simp
  by_cases hlt : i + 1 < l.length
  · rw [getD_append_left l [g] dummyG hlt] at hseed ⊢
    rw [getD_append_left l [g] dummyG (show i < l.length by omega)]
    exact hl i hlt hseed
  · have hieq : i + 1 = l.length := by rw [hlen] at hi; omega
    have h0 : i + 1 - l.length = 0 := by omega
    rw [getD_append_right l [g] dummyG (by omega), h0] at hseed ⊢
    obtain ⟨hlne, hune, hheq⟩ := hg hseed
    have hpos : 0 < l.length := List.length_pos.mpr hlne
    refine ⟨hune, ?_⟩
    rw [getD_append_left l [g] dummyG (show i < l.length by omega)]
    show g.units.head? = ((l.getD i dummyG).units).getLast?
    rw [hheq, getLastD_eq_getD]
    have hieq2 : l.length - 1 = i := by omega
    rw [hieq2]

theorem adjProp_append_unseeded (l l2 : List GChunk) (hl : AdjProp l)
    (h2 : ∀ g ∈ l2, g.seeded = false) : AdjProp (l ++ l2) := by
  intro i hi hseed
  by_cases hlt : i + 1 < l.length
  · rw [getD_append_left l l2 dummyG hlt] at hseed ⊢
    rw [getD_append_left l l2 dummyG (show i < l.length by omega)]
    exact hl i hlt hseed
  · rw [getD_append_right l l2 dummyG (by omega)] at hseed
    have hi2 : i + 1 - l.length < l2.length := by
      rw [List.length_append] at hi
      omega
    have hmem : l2.getD (i + 1 - l.length) dummyG ∈ l2 := getD_mem l2 dummyG hi2
    rw [h2 _ hmem] at hseed
    exact absurd hseed (by decide)

/-- The four-way branch analysis of one `segStep` iteration. -/
theorem segStep_cases (cfg : ChunkingConfig) (sf sec : String) (images : List String)
    (page : Nat) (cbs : List String) (st : SegState) (p : String) :
    (cfg.max_chunk_size < actualParaLen cbs p ∧ isCodePlaceholder p = false
        ∧ segStep cfg sf sec images page cbs st p
          = ⟨(if st.current_chunk_text = [] then st.chunks
              else st.chunks ++ [flushG sf sec images page cbs st.chunks
                st.current_chunk_text st.buffer_seeded])
              ++ (split_by_characters cfg (restore_code_blocks cbs p) sf sec [] page).map
                  (fun c => ⟨c, [], false⟩),
             [], 0, false⟩)
      ∨ (st.current_chunk_text ≠ []
          ∧ segStep cfg sf sec images page cbs st p
            = ⟨st.chunks ++ [flushG sf sec images page cbs st.chunks
                st.current_chunk_text st.buffer_seeded],
               [st.current_chunk_text.getLastD "", p],
               pyLen (st.current_chunk_text.getLastD "") + actualParaLen cbs p, true⟩)
      ∨ (segStep cfg sf sec images page cbs st p
          = ⟨(if st.current_chunk_text = [] then st.chunks
              else st.chunks ++ [flushG sf sec images page cbs st.chunks
                st.current_chunk_text st.buffer_seeded]),
             [p], actualParaLen cbs p, false⟩)
      ∨ (segStep cfg sf sec images page cbs st p
          = ⟨st.chunks, st.current_chunk_text ++ [p],
             st.current_length + actualParaLen cbs p, st.buffer_seeded⟩) := by
  by_cases hA : cfg.max_chunk_size < actualParaLen cbs p ∧ isCodePlaceholder p = false
  · refine Or.inl ⟨hA.1, hA.2, ?_⟩
    simp only [segStep]
    rw [if_pos hA]
  · by_cases hB : cfg.max_chunk_size < st.current_length + actualParaLen cbs p
    · by_cases hC : 0 < cfg.chunk_overlap ∧ st.current_chunk_text ≠ []
          ∧ isCodePlaceholder p = false
      · refine Or.inr (Or.inl ⟨hC.2.1, ?_⟩)
        simp only [segStep]
        rw [if_neg hA, if_pos hB, if_pos hC, if_neg hC.2.1]
      · refine Or.inr (Or.inr (Or.inl ?_))
        simp only [segStep]
        rw [if_neg hA, if_pos hB, if_neg hC]
    · refine Or.inr (Or.inr (Or.inr ?_))
      simp only [segStep]
      rw [if_neg hA, if_neg hB]

theorem getLastD_concat {α : Type} (l : List α) (a d : α) : (l ++ [a]).getLastD d = a := by
  rw [List.getLastD_eq_getLast?, List.getLast?_concat]
  rfl

theorem segStep_pres_seed (cfg : ChunkingConfig) (sf sec : String) (images : List String)
    (page : Nat) (cbs : List String) (st : SegState) (p : String) (h2 : SeedProp st) :
    SeedProp (segStep cfg sf sec images page cbs st p) := by
  rcases segStep_cases cfg sf sec images page cbs st p with ⟨_, _, h⟩ | ⟨hne, h⟩ | h | h
  · rw [h]
    intro hs
    exact Bool.noConfusion hs
  · rw [h]
    intro _
    refine ⟨by simp, by simp, ?_⟩
    show some (st.current_chunk_text.getLastD "")
      = (((st.chunks ++ [flushG sf sec images page cbs st.chunks st.current_chunk_text
            st.buffer_seeded]).getLastD dummyG).units).getLast?
    rw [getLastD_concat]
    show some (st.current_chunk_text.getLastD "") = st.current_chunk_text.getLast?
    exact (getLast?_eq_some_getLastD st.current_chunk_text "" hne).symm
  · rw [h]
    intro hs
    exact Bool.noConfusion hs
  · rw [h]
    intro hs
    obtain ⟨hne, hch, hh⟩ := h2 hs
    refine ⟨by simp [hne], hch, ?_⟩
    rw [head?_append_of_ne_nil _ _ hne]
    exact hh

theorem segStep_pres_adj (cfg : ChunkingConfig) (sf sec : String) (images : List String)
    (page : Nat) (cbs : List String) (st : SegState) (p : String)
    (h1 : AdjProp st.chunks) (h2 : SeedProp st) :
    AdjProp (segStep cfg sf sec images page cbs st p).chunks := by
  have hflush : (flushG sf sec images page cbs st.chunks st.current_chunk_text
      st.buffer_seeded).seeded = true →
      st.chunks ≠ []
        ∧ (flushG sf sec images page cbs st.chunks st.current_chunk_text
            st.buffer_seeded).units ≠ []
        ∧ (flushG sf sec images page cbs st.chunks st.current_chunk_text
            st.buffer_seeded).units.head?
          = ((st.chunks.getLastD dummyG).units).getLast? := by
    intro hs
    obtain ⟨hbne, hchne, hhead⟩ := h2 hs
    exact ⟨hchne, hbne, hhead⟩
  have hchunks1 : AdjProp (if st.current_chunk_text = [] then st.chunks
      else st.chunks ++ [flushG sf sec images page cbs st.chunks st.current_chunk_text
        st.buffer_seeded]) := by
    split
    · exact h1
    · exact adjProp_append_one _ _ h1 hflush
  rcases segStep_cases cfg sf sec images page cbs st p with ⟨_, _, h⟩ | ⟨hne, h⟩ | h | h
  · rw [h]
    apply adjProp_append_unseeded _ _ hchunks1
    intro g hg
    rw [List.mem_map] at hg
    obtain ⟨c, _, rfl⟩ := hg
    rfl
  · rw [h]
    exact adjProp_append_one _ _ h1 hflush
  · rw [h]
    exact hchunks1
  · rw [h]
    exact h1

theorem foldl_pres_adj (cfg : ChunkingConfig) (sf sec : String) (images : List String)
    (page : Nat) (cbs : List String) :
    ∀ ps : List String, ∀ st : SegState, AdjProp st.chunks → SeedProp st →
      AdjProp ((ps.foldl (segStep cfg sf sec images page cbs) st).chunks)
        ∧ SeedProp (ps.foldl (segStep cfg sf sec images page cbs) st) := by
  intro ps
  induction ps with
  | nil => intro st h1 h2; exact ⟨h1, h2⟩
  | cons p ps ih =>
    intro st h1 h2
    exact ih _ (segStep_pres_adj cfg sf sec images page cbs st p h1 h2)
      (segStep_pres_seed cfg sf sec images page cbs st p h2)

/-- The overlap law holds of the full paragraph loop's output. -/
theorem processParas_adj (cfg : ChunkingConfig) (sf sec : String) (images : List String)
    (page : Nat) (cbs : List String) (paras : List String) :
    AdjProp (processParas cfg sf sec images page cbs paras) := by
  have hfold := foldl_pres_adj cfg sf sec images page cbs paras ⟨[], [], 0, false⟩
    adjProp_nil (fun hs => absurd hs (by decide))
  have hPP : processParas cfg sf sec images page cbs paras
      = (if (paras.foldl (segStep cfg sf sec images page cbs)
              ⟨[], [], 0, false⟩).current_chunk_text = []
         then (paras.foldl (segStep cfg sf sec images page cbs) ⟨[], [], 0, false⟩).chunks
         else (paras.foldl (segStep cfg sf sec images page cbs) ⟨[], [], 0, false⟩).chunks
           ++ [flushG sf sec images page cbs
                (paras.foldl (segStep cfg sf sec images page cbs) ⟨[], [], 0, false⟩).chunks
                (paras.foldl (segStep cfg sf sec images page cbs)
                  ⟨[], [], 0, false⟩).current_chunk_text
                (paras.foldl (segStep cfg sf sec images page cbs)
                  ⟨[], [], 0, false⟩).buffer_seeded]) := rfl
  rw [hPP]
  split
  · exact hfold.1
  · apply adjProp_append_one _ _ hfold.1
    intro hs
    obtain ⟨hbne, hchne, hhead⟩ := hfold.2 hs
    exact ⟨hchne, hbne, hhead⟩

/-- C5 (amended): when a chunk was produced by an overflow split with overlap
seeding (`seeded = true`), its leading paragraph unit equals the trailing
paragraph unit of the previous chunk.  (The seeding guard tests the *incoming*
paragraph, not that trailing unit, so the trailing unit may itself be a
protected region — see the counterexample.) -/
theorem c5_overlap_law (cfg : ChunkingConfig) (sf sec : String) (images : List String)
    (page : Nat) (cbs : List String) (paras : List String)
    (hov : 0 < cfg.chunk_overlap) (i : Nat)
    (hi : i + 1 < (processParas cfg sf sec images page cbs paras).length)
    (hseed : ((processParas cfg sf sec images page cbs paras).getD (i + 1) dummyG).seeded
      = true) :
    ((processParas cfg sf sec images page cbs paras).getD (i + 1) dummyG).units ≠ []
      ∧ ((processParas cfg sf sec images page cbs paras).getD (i + 1) dummyG).units.head?
        = ((processParas cfg sf sec images page cbs paras).getD i dummyG).units.getLast? :=
  processParas_adj cfg sf sec images page cbs paras i hi hseed

/-- C5 witness: at `max_chunk_size = 10` the two 8-character paragraphs
overflow, the second chunk is seeded, and its head unit equals the first
chunk's last unit. -/
theorem c5_overlap_law_witness :
    ((processParas cfgMax10 "f" "s" [] 0 [] parasC5).getD 1 dummyG).units ≠ []
      ∧ ((processParas cfgMax10 "f" "s" [] 0 [] parasC5).getD 1 dummyG).units.head?
        = ((processParas cfgMax10 "f" "s" [] 0 [] parasC5).getD 0 dummyG).units.getLast? :=
  c5_overlap_law cfgMax10 "f" "s" [] 0 [] parasC5 (by decide) 0 (by decide) (by decide)

theorem dedupUnits_flushG (sf sec : String) (images : List String) (page : Nat)
    (cbs : List String) (chunks : List GChunk) (buffer : List String) (seeded : Bool) :
    dedupUnits (flushG sf sec images page cbs chunks buffer seeded)
      = if seeded = true then buffer.tail else buffer := rfl

theorem segStep_pres_recon (cfg : ChunkingConfig) (sf sec : String) (images : List String)
    (page : Nat) (cbs : List String) (st : SegState) (p : String) (processed : List String)
    (h2 : SeedProp st) (hB : ReconProp st processed)
    (hp : isCodePlaceholder p = true ∨ actualParaLen cbs p ≤ cfg.max_chunk_size) :
    ReconProp (segStep cfg sf sec images page cbs st p) (processed ++ [p]) := by
  rcases segStep_cases cfg sf sec images page cbs st p with ⟨hfa, hfb, _⟩ | ⟨hne, h⟩ | h | h
  · rcases hp with hp | hp
    · rw [hp] at hfb
      exact Bool.noConfusion hfb
    · omega
  · rw [h]
    show ((st.chunks ++ [flushG sf sec images page cbs st.chunks st.current_chunk_text
          st.buffer_seeded]).map dedupUnits).flatten
        ++ (if (true : Bool) = true then ([st.current_chunk_text.getLastD "", p]).tail
            else [st.current_chunk_text.getLastD "", p])
      = processed ++ [p]
    rw [if_pos rfl, List.map_append, List.flatten_append]
    show (st.chunks.map dedupUnits).flatten
        ++ (dedupUnits (flushG sf sec images page cbs st.chunks st.current_chunk_text
            st.buffer_seeded) ++ []) ++ [p]
      = processed ++ [p]
    rw [List.append_nil, dedupUnits_flushG]
    have hB2 : (st.chunks.map dedupUnits).flatten
        ++ (if st.buffer_seeded = true then st.current_chunk_text.tail
            else st.current_chunk_text)
      = processed := hB
    rw [hB2]
  · rw [h]
    by_cases hcc : st.current_chunk_text = []
    · have hbuf : (if st.buffer_seeded = true then st.current_chunk_text.tail
          else st.current_chunk_text) = [] := by
        rw [hcc]
        split <;> rfl
      have hB2 : (st.chunks.map dedupUnits).flatten = processed := by
        have := hB
        unfold ReconProp at this
        rw [hbuf, List.append_nil] at this
        exact this
      show (((if st.current_chunk_text = [] then st.chunks
          else st.chunks ++ [flushG sf sec images page cbs st.chunks st.current_chunk_text
            st.buffer_seeded]).map dedupUnits).flatten)
          ++ (if (false : Bool) = true then ([p]).tail else [p])
        = processed ++ [p]
      rw [if_pos hcc, if_neg (by decide), hB2]
    · show (((if st.current_chunk_text = [] then st.chunks
          else st.chunks ++ [flushG sf sec images page cbs st.chunks st.current_chunk_text
            st.buffer_seeded]).map dedupUnits).flatten)
          ++ (if (false : Bool) = true then ([p]).tail else [p])
        = processed ++ [p]
      rw [if_neg hcc, if_neg (by decide), List.map_append, List.flatten_append]
      show (st.chunks.map dedupUnits).flatten
          ++ (dedupUnits (flushG sf sec images page cbs st.chunks st.current_chunk_text
              st.buffer_seeded) ++ []) ++ [p]
        = processed ++ [p]
      rw [List.append_nil, dedupUnits_flushG]
      have hB2 : (st.chunks.map dedupUnits).flatten
          ++ (if st.buffer_seeded = true then st.current_chunk_text.tail
              else st.current_chunk_text)
        = processed := hB
      rw [hB2]
  · rw [h]
    show (st.chunks.map dedupUnits).flatten
        ++ (if st.buffer_seeded = true then (st.current_chunk_text ++ [p]).tail
            else st.current_chunk_text ++ [p])
      = processed ++ [p]
    by_cases hs : st.buffer_seeded = true
    · obtain ⟨hne, _, _⟩ := h2 hs
      rw [if_pos hs, List.tail_append_of_ne_nil hne, ← List.append_assoc]
      have hB2 : (st.chunks.map dedupUnits).flatten ++ st.current_chunk_text.tail
          = processed := by
        have := hB
        unfold ReconProp at this
        rw [if_pos hs] at this
        exact this
      rw [hB2]
    · rw [if_neg hs, ← List.append_assoc]
      have hB2 : (st.chunks.map dedupUnits).flatten ++ st.current_chunk_text = processed := by
        have := hB
        unfold ReconProp at this
        rw [if_neg hs] at this
        exact this
      rw [hB2]

theorem foldl_pres_recon (cfg : ChunkingConfig) (sf sec : String) (images : List String)
    (page : Nat) (cbs : List String) :
    ∀ ps : List String, ∀ st : SegState, ∀ processed : List String,
      SeedProp st → ReconProp st processed →
      (∀ p ∈ ps, isCodePlaceholder p = true ∨ actualParaLen cbs p ≤ cfg.max_chunk_size) →
      SeedProp (ps.foldl (segStep cfg sf sec images page cbs) st)
        ∧ ReconProp (ps.foldl (segStep cfg sf sec images page cbs) st) (processed ++ ps) := by
  intro ps
  induction ps with
  | nil =>
    intro st processed h2 hB _
    rw [List.append_nil]
    exact ⟨h2, hB⟩
  | cons p ps ih =>
    intro st processed h2 hB hp
    have hstep := ih (segStep cfg sf sec images page cbs st p) (processed ++ [p])
      (segStep_pres_seed cfg sf sec images page cbs st p h2)
      (segStep_pres_recon cfg sf sec images page cbs st p processed h2 hB
        (hp p (List.mem_cons_self p ps)))
      (fun q hq => hp q (List.mem_cons_of_mem p hq))
    rw [List.append_cons]
    exact hstep

/-- C6 (amended): provided no paragraph unit requires forced character
splitting (each unit is a protected placeholder or fits in `max_chunk_size`),
concatenating the paragraph units of all emitted chunks in order, after
removing the duplicated leading overlap unit of each seeded chunk, reproduces
exactly the section's normalized paragraph sequence.  (Character-exact
reconstruction of the raw text fails — see the counterexample — because the
splitter strips whitespace and drops blank lines.) -/
theorem c6_unit_reconstruction (cfg : ChunkingConfig) (sf sec : String)
    (images : List String) (page : Nat) (cbs : List String) (paras : List String)
    (hp : ∀ p ∈ paras, isCodePlaceholder p = true ∨ actualParaLen cbs p ≤ cfg.max_chunk_size) :
    ((processParas cfg sf sec images page cbs paras).map dedupUnits).flatten = paras := by
  have hfold := foldl_pres_recon cfg sf sec images page cbs paras ⟨[], [], 0, false⟩ []
    (fun hs => Bool.noConfusion hs) rfl hp
  have hPP : processParas cfg sf sec images page cbs paras
      = (if (paras.foldl (segStep cfg sf sec images page cbs)
              ⟨[], [], 0, false⟩).current_chunk_text = []
         then (paras.foldl (segStep cfg sf sec images page cbs) ⟨[], [], 0, false⟩).chunks
         else (paras.foldl (segStep cfg sf sec images page cbs) ⟨[], [], 0, false⟩).chunks
           ++ [flushG sf sec images page cbs
                (paras.foldl (segStep cfg sf sec images page cbs) ⟨[], [], 0, false⟩).chunks
                (paras.foldl (segStep cfg sf sec images page cbs)
                  ⟨[], [], 0, false⟩).current_chunk_text
                (paras.foldl (segStep cfg sf sec images page cbs)
                  ⟨[], [], 0, false⟩).buffer_seeded]) := rfl
  have hB := hfold.2
  unfold ReconProp at hB
  rw [List.nil_append] at hB
  rw [hPP]
  split
  · next hcc =>
    rw [hcc] at hB
    have hbuf : (if (paras.foldl (segStep cfg sf sec images page cbs)
          ⟨[], [], 0, false⟩).buffer_seeded = true
        then ([] : List String).tail else ([] : List String)) = [] := by
      split <;> rfl
    rw [hbuf, List.append_nil] at hB
    exact hB
  · rw [List.map_append, List.flatten_append]
    show ((paras.foldl (segStep cfg sf sec images page cbs)
          ⟨[], [], 0, false⟩).chunks.map dedupUnits).flatten
        ++ (dedupUnits (flushG sf sec images page cbs _ _ _) ++ []) = paras
    rw [List.append_nil, dedupUnits_flushG]
    exact hB

/-- C6 witness: three short units reconstruct exactly after removing each
seeded chunk's duplicated leading unit. -/
theorem c6_unit_reconstruction_witness :
    ((processParas cfgMax10 "f" "s" [] 0 [] parasC6).map dedupUnits).flatten = parasC6 :=
  c6_unit_reconstruction cfgMax10 "f" "s" [] 0 [] parasC6 (by decide)

/-! ### Image attachment lemmas (C3) -/

theorem charGo_pres_images (cfg : ChunkingConfig) (sf sec : String) (images : List String)
    (page : Nat) (text : List Char) :
    ∀ fuel start : Nat, ∀ acc : List DocumentChunk,
      TailEmptyImages acc → HeadImagesOk images acc →
      TailEmptyImages (split_by_characters_go cfg sf sec images page text fuel start acc)
        ∧ HeadImagesOk images (split_by_characters_go cfg sf sec images page text fuel start acc) := by
  intro fuel
  induction fuel with
  | zero => intro start acc hT hH; exact ⟨hT, hH⟩
  | succ fuel ih =>
    intro start acc hT hH
    simp only [split_by_characters_go]
    split
    · apply ih
      · split
        · exact hT
        · intro j hj1 hj2
          simp only [List.length_append, List.length_cons, List.length_nil] at hj2
          by_cases hjl : j < acc.length
          · rw [getD_append_left _ _ _ hjl]
            exact hT j hj1 hjl
          · rw [getD_append_right _ _ _ (by omega)]
            have h0 : j - acc.length = 0 := by omega
            rw [h0]
            have hacc : acc ≠ [] := by
              intro he
              subst he
              simp only [List.length_nil, Nat.zero_add] at hj2
              omega
            show (if acc = [] then images else []) = []
            rw [if_neg hacc]
      · split
        · exact hH
        · intro _
          by_cases hacc : acc = []
          · subst hacc
            left
            show (if ([] : List DocumentChunk) = [] then images else []) = images
            rw [if_pos rfl]
          · rw [getD_append_left _ _ _ (List.length_pos.mpr hacc)]
            exact hH hacc
    · exact ⟨hT, hH⟩

theorem charGo_mem_empty (cfg : ChunkingConfig) (sf sec : String) (page : Nat)
    (text : List Char) :
    ∀ fuel start : Nat, ∀ acc : List DocumentChunk, (∀ c ∈ acc, c.images = []) →
      ∀ c ∈ split_by_characters_go cfg sf sec [] page text fuel start acc, c.images = [] := by
  intro fuel
  induction fuel with
  | zero => intro start acc h; exact h
  | succ fuel ih =>
    intro start acc h
    simp only [split_by_characters_go]
    split
    · apply ih
      split
      · exact h
      · intro c hc
        rcases List.mem_append.mp hc with hc | hc
        · exact h c hc
        · rw [List.mem_singleton] at hc
          subst hc
          show (if acc = [] then ([] : List String) else []) = []
          split <;> rfl
    · exact h

theorem split_by_characters_all_empty (cfg : ChunkingConfig) (t sf sec : String) (page : Nat) :
    ∀ c ∈ split_by_characters cfg t sf sec [] page, c.images = [] :=
  charGo_mem_empty cfg sf sec page t.data t.data.length 0 []
    (fun c hc => absurd hc (List.not_mem_nil c))

theorem imagesInv_append_flush (images : List String) (l : List GChunk) (g : GChunk)
    (hg : g.chunk.images = if l = [] then images else [])
    (hT : TailEmptyImagesG l) (hH : HeadImagesOkG images l) :
    TailEmptyImagesG (l ++ [g]) ∧ HeadImagesOkG images (l ++ [g]) := by
  constructor
  · intro j hj1 hj2
    simp only [List.length_append, List.length_cons, List.length_nil] at hj2
    by_cases hjl : j < l.length
    · rw [getD_append_left _ _ _ hjl]
      exact hT j hj1 hjl
    · rw [getD_append_right _ _ _ (by omega)]
      have h0 : j - l.length = 0 := by omega
      rw [h0]
      have hlne : l ≠ [] := by
        intro he
        subst he
        simp only [List.length_nil, Nat.zero_add] at hj2
        omega
      show g.chunk.images = []
      rw [hg, if_neg hlne]
  · intro _
    by_cases hl : l = []
    · subst hl
      show g.chunk.images = images ∨ g.chunk.images = []
      rw [hg, if_pos rfl]
      left
      rfl
    · rw [getD_append_left _ _ _ (List.length_pos.mpr hl)]
      exact hH hl

theorem imagesInv_append_empty (images : List String) (l l2 : List GChunk)
    (h2 : ∀ g ∈ l2, g.chunk.images = [])
    (hT : TailEmptyImagesG l) (hH : HeadImagesOkG images l) :
    TailEmptyImagesG (l ++ l2) ∧ HeadImagesOkG images (l ++ l2) := by
  constructor
  · intro j hj1 hj2
    simp only [List.length_append, List.length_cons, List.length_nil] at hj2
    by_cases hjl : j < l.length
    · rw [getD_append_left _ _ _ hjl]
      exact hT j hj1 hjl
    · rw [getD_append_right _ _ _ (by omega)]
      exact h2 _ (getD_mem l2 dummyG (by omega))
  · intro hne
    by_cases hl : l = []
    · subst hl
      rw [List.nil_append] at hne ⊢
      right
      exact h2 _ (getD_mem l2 dummyG (List.length_pos.mpr hne))
    · rw [getD_append_left _ _ _ (List.length_pos.mpr hl)]
      exact hH hl

theorem segStep_pres_images (cfg : ChunkingConfig) (sf sec : String) (images : List String)
    (page : Nat) (cbs : List String) (st : SegState) (p : String)
    (hT : TailEmptyImagesG st.chunks) (hH : HeadImagesOkG images st.chunks) :
    TailEmptyImagesG (segStep cfg sf sec images page cbs st p).chunks
      ∧ HeadImagesOkG images (segStep cfg sf sec images page cbs st p).chunks := by
  have hflush : (flushG sf sec images page cbs st.chunks st.current_chunk_text
      st.buffer_seeded).chunk.images = if st.chunks = [] then images else [] := rfl
  have hchunks1 : TailEmptyImagesG (if st.current_chunk_text = [] then st.chunks
        else st.chunks ++ [flushG sf sec images page cbs st.chunks st.current_chunk_text
          st.buffer_seeded])
      ∧ HeadImagesOkG images (if st.current_chunk_text = [] then st.chunks
        else st.chunks ++ [flushG sf sec images page cbs st.chunks st.current_chunk_text
          st.buffer_seeded]) := by
    split
    · exact ⟨hT, hH⟩
    · exact imagesInv_append_flush images _ _ hflush hT hH
  rcases segStep_cases cfg sf sec images page cbs st p with ⟨_, _, h⟩ | ⟨hne, h⟩ | h | h
  · rw [h]
    apply imagesInv_append_empty images _ _ ?_ hchunks1.1 hchunks1.2
    intro g hg
    rw [List.mem_map] at hg
    obtain ⟨c, hc, rfl⟩ := hg
    exact split_by_characters_all_empty cfg _ sf sec page c hc
  · rw [h]
    exact imagesInv_append_flush images _ _ hflush hT hH
  · rw [h]
    exact hchunks1
  · rw [h]
    exact ⟨hT, hH⟩

theorem processParas_images (cfg : ChunkingConfig) (sf sec : String) (images : List String)
    (page : Nat) (cbs : List String) (paras : List String) :
    TailEmptyImagesG (processParas cfg sf sec images page cbs paras)
      ∧ HeadImagesOkG images (processParas cfg sf sec images page cbs paras) := by
  have hfold : ∀ ps : List String, ∀ st : SegState,
      TailEmptyImagesG st.chunks → HeadImagesOkG images st.chunks →
      TailEmptyImagesG ((ps.foldl (segStep cfg sf sec images page cbs) st).chunks)
        ∧ HeadImagesOkG images ((ps.foldl (segStep cfg sf sec images page cbs) st).chunks) := by
    intro ps
    induction ps with
    | nil => intro st h1 h2; exact ⟨h1, h2⟩
    | cons p ps ih =>
      intro st h1 h2
      obtain ⟨h1a, h2a⟩ := segStep_pres_images cfg sf sec images page cbs st p h1 h2
      exact ih _ h1a h2a
  have hres := hfold paras ⟨[], [], 0, false⟩
    (fun j _ hj2 => absurd hj2 (by simp))
    (fun hne => absurd rfl hne)
  have hPP : processParas cfg sf sec images page cbs paras
      = (if (paras.foldl (segStep cfg sf sec images page cbs)
              ⟨[], [], 0, false⟩).current_chunk_text = []
         then (paras.foldl (segStep cfg sf sec images page cbs) ⟨[], [], 0, false⟩).chunks
         else (paras.foldl (segStep cfg sf sec images page cbs) ⟨[], [], 0, false⟩).chunks
           ++ [flushG sf sec images page cbs
                (paras.foldl (segStep cfg sf sec images page cbs) ⟨[], [], 0, false⟩).chunks
                (paras.foldl (segStep cfg sf sec images page cbs)
                  ⟨[], [], 0, false⟩).current_chunk_text
                (paras.foldl (segStep cfg sf sec images page cbs)
                  ⟨[], [], 0, false⟩).buffer_seeded]) := rfl
  rw [hPP]
  split
  · exact hres
  · exact imagesInv_append_flush images _ _ rfl hres.1 hres.2

theorem getD_map_chunk (l : List GChunk) (i : Nat) (h : i < l.length) :
    (l.map (fun g => g.chunk)).getD i dummyChunk = (l.getD i dummyG).chunk := by
  rw [List.getD_eq_getElem?_getD, List.getD_eq_getElem?_getD, List.getElem?_map,
    List.getElem?_eq_getElem h]
  rfl

/-- C3 (amended): every chunk after the first emitted for a section carries an
*empty* image list, whatever `[IMG:path]` tokens its text contains — the code
never re-attaches an inline token's path to a later chunk, so the
token-implies-membership invariant fails for split sections (counterexample);
the section's bulk image list can reach the first chunk only. -/
theorem c3_nonfirst_chunks_no_images (cfg : ChunkingConfig) (text sf sec : String)
    (images : List String) (page : Nat) (i : Nat) (h1 : 1 ≤ i)
    (h2 : i < (split_text_with_overlap cfg text sf sec images page).length) :
    ((split_text_with_overlap cfg text sf sec images page).getD i dummyChunk).images = [] := by
  by_cases hshort : pyLen text ≤ cfg.max_chunk_size
  · have hout : split_text_with_overlap cfg text sf sec images page
        = [create_chunk text sf sec images page] := by
      unfold split_text_with_overlap
      rw [if_pos hshort]
    rw [hout] at h2
    simp at h2
    omega
  · by_cases hpar : cfg.split_by_paragraph = true
    · have hout : split_text_with_overlap cfg text sf sec images page
          = (processParas cfg sf sec images page (protectCodeBlocks text).2
              (((splitNL (protectCodeBlocks text).1).map pyStrip).filter
                (fun p => p ≠ ""))).map (fun g => g.chunk) := by
        unfold split_text_with_overlap
        rw [if_neg hshort, if_pos hpar]
      rw [hout] at h2 ⊢
      rw [List.length_map] at h2
      rw [getD_map_chunk _ i h2]
      exact (processParas_images cfg sf sec images page _ _).1 i h1 h2
    · have hout : split_text_with_overlap cfg text sf sec images page
          = split_by_characters cfg text sf sec images page := by
        unfold split_text_with_overlap
        rw [if_neg hshort, if_neg hpar]
      rw [hout] at h2 ⊢
      exact (charGo_pres_images cfg sf sec images page text.data text.data.length 0 []
        (fun j _ hj2 => absurd hj2 (by simp))
        (fun hne => absurd rfl hne)).1 i h1 h2

/-- C3 witness: the second chunk of the split of `textC3` has no images. -/
theorem c3_nonfirst_chunks_no_images_witness :
    ((split_text_with_overlap cfgMax10 textC3 "f" "s" ["p"] 0).getD 1 dummyChunk).images = [] :=
  c3_nonfirst_chunks_no_images cfgMax10 textC3 "f" "s" ["p"] 0 1 (by decide) (by decide)
